import Mathlib

/-!
Verification of the expansion-team overlay/resolution engine of the Snallabot
Discord bot fork.  The definitions below are a shallow embedding of the
TypeScript sources (`expansion_teams.ts`, `team_utils.ts`,
`enhanced_team_utils.ts`, `enhanced_madden_db.ts`,
`enhanced_game_channels.ts`).  The module-level mutable registry
(`expansionTeamMappings`, a JS `Map`) is made explicit: every function that
reads or writes it takes and/or returns a `Store` value.  JS `Map`s are
modelled as association lists with `Map.set` semantics (update in place keeps
the insertion-order position, a fresh key is appended); plain objects with
numeric keys enumerate their values in ascending key order, as required by the
ECMAScript specification.
-/

namespace Snallabot

/-- JS `Map.set`: replace the value in place when the key is present, append a
fresh entry otherwise (preserving insertion order). -/
def jsMapSet [DecidableEq κ] : List (κ × α) → κ → α → List (κ × α)
  | [], k, v => [(k, v)]
  | (k', v') :: rest, k, v =>
    if k' = k then (k, v) :: rest else (k', v') :: jsMapSet rest k v

/-- JS `Map.get`, as an `Option`. -/
def jsMapGet [DecidableEq κ] (m : List (κ × α)) (k : κ) : Option α :=
  (m.find? (fun p => p.1 = k)).map (·.2)

/-- JS `Map.has`. -/
def jsMapHas [DecidableEq κ] (m : List (κ × α)) (k : κ) : Bool :=
  (jsMapGet m k).isSome

/-- JS `Map.delete`. -/
def jsMapDelete [DecidableEq κ] (m : List (κ × α)) (k : κ) : List (κ × α) :=
  m.filter (fun p => ¬ p.1 = k)

/-- JS `String.prototype.toLowerCase`, for the ASCII strings this code
handles (implemented character-wise over the underlying list). -/
def jsToLower (s : String) : String := String.mk (s.data.map Char.toLower)

/-- JS `String.prototype.toUpperCase`, for the ASCII strings this code
handles (implemented character-wise over the underlying list). -/
def jsToUpper (s : String) : String := String.mk (s.data.map Char.toUpper)

/-- Code-point lexicographic strict order on character lists (the order JS
`<`/`localeCompare` induces on the ASCII strings this code compares). -/
def charListLt : List Char → List Char → Bool
  | [], [] => false
  | [], _ :: _ => true
  | _ :: _, [] => false
  | a :: as, b :: bs =>
    if a.toNat < b.toNat then true
    else if b.toNat < a.toNat then false
    else charListLt as bs

/-- Code-point strict order on strings. -/
def strLtB (a b : String) : Bool := charListLt a.data b.data

/-- JS `String.prototype.split(' ')` (single-character separator), over the
underlying character list. -/
def splitOnSpaceAux (cur : List Char) : List Char → List (List Char)
  | [] => [cur.reverse]
  | c :: cs =>
    if c = ' ' then cur.reverse :: splitOnSpaceAux [] cs
    else splitOnSpaceAux (c :: cur) cs

/-- See `splitOnSpaceAux`. -/
def jsSplitOnSpace (s : String) : List String :=
  (splitOnSpaceAux [] s.data).map String.mk

/-- Character-list prefix test backing the substring test below. -/
def charLeads : List Char → List Char → Bool
  | [], _ => true
  | _ :: _, [] => false
  | a :: p, b :: l => a = b && charLeads p l

/-- Character-list occurrence test: the first list occurs contiguously in the
second. -/
def charOccurs (p : List Char) : List Char → Bool
  | [] => charLeads p []
  | b :: l => charLeads p (b :: l) || charOccurs p l

/-- JS `String.prototype.includes`: `needle` occurs in `hay`. -/
def jsIncludes (hay needle : String) : Bool := charOccurs needle.data hay.data

/-- A raw league team record (`Team` of `madden_league_types.ts`), restricted
to the fields this core reads. -/
structure Team where
  teamId : Nat
  displayName : String
  nickName : String
  cityName : String
  abbrName : String
  divName : String
  divisionId : Nat
  conferenceId : Nat
  logoId : Nat
deriving DecidableEq

/-- An expansion-team catalog entry (`ExpansionTeam` of `expansion_teams.ts`);
the nested `colors` object is flattened into three fields. -/
structure ExpansionTeam where
  name : String
  primaryColor : String
  secondaryColor : String
  tertiaryColor : Option String
  logoId : Nat
deriving DecidableEq

/-- Shape `ExpansionTeamMapping` of `expansion_teams.ts`. -/
structure ExpansionTeamMapping where
  expansionName : String
  originalTeamId : Nat
  originalTeamName : String
  divisionId : Nat
  conferenceId : Nat
deriving DecidableEq

/-- The `EXPANSION_TEAMS` record: the static catalog of the 31 expansion
teams, with the custom logo ids 1001–1031. -/
def EXPANSION_TEAMS : List (String × ExpansionTeam) :=
  [ ("Antlers", ⟨"Antlers", "Green", "White", some "Brown", 1001⟩),
    ("Armadillos", ⟨"Armadillos", "Red", "Gold", some "Black", 1002⟩),
    ("Aviators", ⟨"Aviators", "Black", "Blue", some "White", 1003⟩),
    ("Bisons", ⟨"Bisons", "Yellow", "Orange", some "Blue", 1004⟩),
    ("Black Knights", ⟨"Black Knights", "Black", "White", some "Red", 1005⟩),
    ("Blues", ⟨"Blues", "Blue", "White", some "Black", 1006⟩),
    ("Bulls", ⟨"Bulls", "White", "Blue", some "Yellow", 1007⟩),
    ("Caps", ⟨"Caps", "White", "Blue", some "Red", 1008⟩),
    ("Condors", ⟨"Condors", "White", "Purple", some "Black", 1009⟩),
    ("Desperados", ⟨"Desperados", "Black", "Grey", some "Red", 1010⟩),
    ("Dragons", ⟨"Dragons", "Red", "Black", some "White", 1011⟩),
    ("Dreadnoughts", ⟨"Dreadnoughts", "Blue", "Yellow", some "White", 1012⟩),
    ("Elks", ⟨"Elks", "Blue", "Yellow", some "White", 1013⟩),
    ("Golden Eagles", ⟨"Golden Eagles", "Red", "Green", some "White", 1014⟩),
    ("Huskies", ⟨"Huskies", "Blue", "Black", some "White", 1015⟩),
    ("Lumberjacks", ⟨"Lumberjacks", "Black", "Red", some "White", 1016⟩),
    ("Monarchs", ⟨"Monarchs", "Blue", "White", some "Red", 1017⟩),
    ("Mounties", ⟨"Mounties", "Navy", "Mustard", some "Red", 1018⟩),
    ("Night Hawks", ⟨"Night Hawks", "Blue", "Grey", some "Black", 1019⟩),
    ("Orbits", ⟨"Orbits", "Blue", "Grey", some "White", 1020⟩),
    ("Pioneers", ⟨"Pioneers", "Brown", "Orange", some "White", 1021⟩),
    ("Redwoods", ⟨"Redwoods", "Green", "White", some "Brown", 1022⟩),
    ("River Hogs", ⟨"River Hogs", "Navy", "Blue", some "White", 1023⟩),
    ("Sentinels", ⟨"Sentinels", "Blue", "Grey", some "Black", 1024⟩),
    ("Shamrocks", ⟨"Shamrocks", "Green", "White", none, 1025⟩),
    ("Snowhawks", ⟨"Snowhawks", "White", "Grey", some "Light Blue", 1026⟩),
    ("Steamers", ⟨"Steamers", "Black", "Brown", some "White", 1027⟩),
    ("Thunderbirds", ⟨"Thunderbirds", "Red", "White", some "Orange", 1028⟩),
    ("Tigers", ⟨"Tigers", "Black", "Orange", some "White", 1029⟩),
    ("Voyagers", ⟨"Voyagers", "Blue", "White", some "Yellow", 1030⟩),
    ("Wizards", ⟨"Wizards", "Blue", "Yellow", some "White", 1031⟩) ]

/-- The module-level mutable registry `expansionTeamMappings`, made explicit. -/
abbrev Store := List (Nat × ExpansionTeamMapping)

/-- Source `registerExpansionTeam` of `expansion_teams.ts`. -/
def registerExpansionTeam (s : Store) (teamId : Nat) (expansionName : String)
    (originalTeamName : String) (divisionId : Nat) (conferenceId : Nat) : Store :=
  jsMapSet s teamId
    { expansionName := expansionName, originalTeamId := teamId,
      originalTeamName := originalTeamName, divisionId := divisionId,
      conferenceId := conferenceId }

/-- Source `isExpansionTeam` of `expansion_teams.ts`. -/
def isExpansionTeam (s : Store) (teamId : Nat) : Bool := jsMapHas s teamId

/-- Source `getExpansionTeamMapping` of `expansion_teams.ts`. -/
def getExpansionTeamMapping (s : Store) (teamId : Nat) : Option ExpansionTeamMapping :=
  jsMapGet s teamId

/-- Source `getExpansionTeamByName` of `expansion_teams.ts` (`EXPANSION_TEAMS[name]`). -/
def getExpansionTeamByName (name : String) : Option ExpansionTeam :=
  (EXPANSION_TEAMS.find? (fun p => p.1 = name)).map (·.2)

/-- Source `isValidExpansionTeamName` of `expansion_teams.ts` (`name in EXPANSION_TEAMS`). -/
def isValidExpansionTeamName (name : String) : Bool :=
  (EXPANSION_TEAMS.find? (fun p => p.1 = name)).isSome

/-- Source `removeExpansionTeamMapping` of `expansion_teams.ts`. -/
def removeExpansionTeamMapping (s : Store) (teamId : Nat) : Store :=
  jsMapDelete s teamId

/-- Source `getTeamLogoId` of `expansion_teams.ts`: `expansionTeam?.logoId ||
originalLogoId` (`0` is falsy in JS, hence the explicit zero test). -/
def getTeamLogoId (s : Store) (teamId : Nat) (originalLogoId : Nat) : Nat :=
  match getExpansionTeamMapping s teamId with
  | some mapping =>
    match getExpansionTeamByName mapping.expansionName with
    | some expansionTeam =>
      if expansionTeam.logoId = 0 then originalLogoId else expansionTeam.logoId
    | none => originalLogoId
  | none => originalLogoId

/-- Source `getTeamDisplayName` of `expansion_teams.ts`. -/
def getTeamDisplayName (s : Store) (teamId : Nat) (originalName : String) : String :=
  match getExpansionTeamMapping s teamId with
  | some mapping => mapping.expansionName
  | none => originalName

/-- Source `autoDetectExpansionTeams` of `expansion_teams.ts`.  The duck-typed
candidate `team.displayName || team.nickName || team.teamName` collapses to
`displayName`-else-`nickName` because `Team` records carry no `teamName`
property (`""` is falsy); `team.originalName` is likewise absent, so the
registered original name falls back to the candidate name itself, and
`team.divisionId || 0` / `team.conferenceId || 0` are the fields themselves. -/
def autoDetectCandidate (team : Team) : String :=
  if team.displayName ≠ "" then team.displayName else team.nickName

/-- The guard `if (teamName && isValidExpansionTeamName(teamName))` of the
`forEach` body: the candidate name is truthy and is a catalog key. -/
def autoDetectGuard (team : Team) : Bool :=
  autoDetectCandidate team ≠ "" && isValidExpansionTeamName (autoDetectCandidate team)

/-- The per-team body of `autoDetectExpansionTeams`'s `forEach`. -/
def autoDetectStep (st : Store) (team : Team) : Store :=
  if autoDetectGuard team then
    if ¬ isExpansionTeam st team.teamId then
      registerExpansionTeam st team.teamId (autoDetectCandidate team)
        (autoDetectCandidate team) team.divisionId team.conferenceId
    else st
  else st

/-- See `autoDetectCandidate` and `autoDetectStep`. -/
def autoDetectExpansionTeams (s : Store) (teams : List Team) : Store :=
  teams.foldl autoDetectStep s

/-- Type `SimResult` (values listed in the spec's data model and serialized in the
scoreboard code). -/
inductive SimResult
  | FORCE_WIN_HOME
  | FORCE_WIN_AWAY
  | FAIR_SIM
  | NONE
deriving DecidableEq

/-- The wire string of a `SimResult`, as compared by the scoreboard code. -/
def SimResult.serialize : SimResult → String
  | .FORCE_WIN_HOME => "FORCE_WIN_HOME"
  | .FORCE_WIN_AWAY => "FORCE_WIN_AWAY"
  | .FAIR_SIM => "FAIR_SIM"
  | .NONE => "NONE"

/-- The corrected sim classifier (the guarded snippet of the repository's
integration guide for `notifier.ts`).  The snippet shows the three guarded
non-empty branches; the fall-through result is

Modelled from the spec: `notifier.ts` itself is not in the sources, and the
spec's outcome table sends the both-empty case to `NONE`. -/
def classifySimResult (homeUsers awayUsers : List String) : SimResult :=
  if homeUsers.length > 0 ∧ awayUsers.length = 0 then .FORCE_WIN_HOME
  else if awayUsers.length > 0 ∧ homeUsers.length = 0 then .FORCE_WIN_AWAY
  else if homeUsers.length > 0 ∧ awayUsers.length > 0 then .FAIR_SIM
  else .NONE

/-- The spec's 2×2 outcome table for the sim classifier, written from the
spec's words for comparison with `classifySimResult` (arguments are
"home set non-empty" and "away set non-empty"). -/
def specSimTable (homeNonEmpty awayNonEmpty : Bool) : SimResult :=
  match homeNonEmpty, awayNonEmpty with
  | true, false => .FORCE_WIN_HOME
  | false, true => .FORCE_WIN_AWAY
  | true, true => .FAIR_SIM
  | false, false => .NONE

/-- The error text thrown by `createSimMessage`. -/
def simMessageErrorText : String := "Should not have gotten here! from createSimMessage"

/-- Source `createSimMessage` of `enhanced_game_channels.ts`; the `throw` is embedded
as `Except.error`. -/
def createSimMessage (result : String) : Except String String :=
  if result = "FAIR_SIM" then .ok "Fair Sim"
  else if result = "FORCE_WIN_AWAY" then .ok "Force Win Away"
  else if result = "FORCE_WIN_HOME" then .ok "Force Win Home"
  else .error simMessageErrorText

/-- An enriched team (`enhanceTeamData`'s output shape): the base record plus
the expansion marker and, for overlaid teams, the preserved pre-overlay names
(`none` encodes the JS `undefined` of non-expansion records). -/
structure EnrichedTeam extends Team where
  originalDisplayName : Option String
  originalNickName : Option String
  isExpansionTeam : Bool
deriving DecidableEq

/-- The per-team overlay rule inside `enhanceTeamData` of `team_utils.ts`, for
a fixed registry state. -/
def enhanceOne (s : Store) (team : Team) : EnrichedTeam :=
  match getExpansionTeamMapping s team.teamId with
  | some mapping =>
    { team with
        displayName := getTeamDisplayName s team.teamId team.displayName,
        nickName := mapping.expansionName,
        logoId := getTeamLogoId s team.teamId team.logoId,
        originalDisplayName := some team.displayName,
        originalNickName := some team.nickName,
        isExpansionTeam := true }
  | none =>
    { team with
        originalDisplayName := none,
        originalNickName := none,
        isExpansionTeam := false }

/-- Source `enhanceTeamData` of `team_utils.ts`, with the mutable module state made
explicit.  It returns the updated registry, the input array as observable
after the call (the source only reads `teams`: `autoDetectExpansionTeams`
reads team fields and writes the registry, and the result is built by
`teams.map` from fresh object spreads — nothing assigns into `teams` or its
elements), and the fresh enriched array. -/
def enhanceTeamData (s : Store) (teams : List Team) :
    Store × List Team × List EnrichedTeam :=
  let s' := autoDetectExpansionTeams s teams
  (s', teams, teams.map (enhanceOne s'))

/-- Source `getTeamAbbreviation` of `team_utils.ts`. -/
def getTeamAbbreviation (s : Store) (team : Team) : String :=
  match getExpansionTeamMapping s team.teamId with
  | some mapping =>
    let words := jsSplitOnSpace mapping.expansionName
    if words.length = 1 then
      jsToUpper (String.mk ((words.headD "").data.take 3))
    else
      String.mk ((jsToUpper (String.join (words.map (fun w => String.mk (w.data.take 1))))).data.take 3)
  | none => team.abbrName

/-- JS `String.prototype.localeCompare`, modelled as code-point comparison
(the strings this code compares are plain ASCII). -/
def localeCompare (a b : String) : Int :=
  if strLtB a b then -1 else if strLtB b a then 1 else 0

/-- The comparator inside `sortTeamsForDivisionDisplay` of `team_utils.ts`:
division name first, then the overlaid display name. -/
def divisionDisplayCompare (s : Store) (a b : EnrichedTeam) : Int :=
  if a.divName ≠ b.divName then localeCompare a.divName b.divName
  else localeCompare (getTeamDisplayName s a.teamId a.displayName)
    (getTeamDisplayName s b.teamId b.displayName)

/-- The non-strict order induced by `divisionDisplayCompare`. -/
def divisionDisplayLe (s : Store) (a b : EnrichedTeam) : Prop :=
  divisionDisplayCompare s a b ≤ 0

instance (s : Store) : DecidableRel (divisionDisplayLe s) := fun a b =>
  inferInstanceAs (Decidable (divisionDisplayCompare s a b ≤ 0))

/-- Source `sortTeamsForDivisionDisplay` of `team_utils.ts`.  `Array.prototype.sort`
is modelled as a stable sort with respect to the comparator, as the
ECMAScript specification requires. -/
def sortTeamsForDivisionDisplay (s : Store) (teams : List EnrichedTeam) :
    List EnrichedTeam :=
  List.insertionSort (divisionDisplayLe s) teams

/-- A `SearchRecord`: one value of the object built by
`createEnhancedTeamSearchIndex` of `team_utils.ts`. -/
structure SearchRecord where
  cityName : String
  abbrName : String
  nickName : String
  displayName : String
  id : Nat
  originalNickName : String
  originalDisplayName : String
  isExpansionTeam : Bool
deriving DecidableEq

/-- One entry of the search index (`searchIndex[team.teamId] = {...}`).  Note
that its `original*` fields copy the *input record's* current names — when the
input is an already-enriched team those are the overlaid names, not the
pre-overlay ones. -/
def mkSearchRecord (s : Store) (team : EnrichedTeam) : SearchRecord :=
  { cityName := team.cityName,
    abbrName := getTeamAbbreviation s team.toTeam,
    nickName :=
      match getExpansionTeamMapping s team.teamId with
      | some mapping => mapping.expansionName
      | none => team.nickName,
    displayName := getTeamDisplayName s team.teamId team.displayName,
    id := team.teamId,
    originalNickName := team.nickName,
    originalDisplayName := team.displayName,
    isExpansionTeam := (getExpansionTeamMapping s team.teamId).isSome }

/-- Source `createEnhancedTeamSearchIndex` of `team_utils.ts`, as the keyed object
(numeric keys). -/
def searchIndexStep (s : Store) (idx : List (Nat × SearchRecord))
    (team : EnrichedTeam) : List (Nat × SearchRecord) :=
  jsMapSet idx team.teamId (mkSearchRecord s team)

/-- See `searchIndexStep`. -/
def createEnhancedTeamSearchIndex (s : Store) (teams : List EnrichedTeam) :
    List (Nat × SearchRecord) :=
  teams.foldl (searchIndexStep s) []

/-- Key order on the entries of a numeric-keyed JS object. -/
def keyLe (p q : Nat × SearchRecord) : Prop := p.1 ≤ q.1

instance : DecidableRel keyLe := fun p q => inferInstanceAs (Decidable (p.1 ≤ q.1))

/-- JS `Object.values` on a numeric-keyed object: values in ascending key order
(per the ECMAScript enumeration order for integer-indexed keys). -/
def objectValuesNumeric (m : List (Nat × SearchRecord)) : List SearchRecord :=
  (List.insertionSort keyLe m).map (·.2)

/-- The list the resolver's `Object.values(searchIndex)` iterates over. -/
def searchIndexValues (s : Store) (teams : List EnrichedTeam) : List SearchRecord :=
  objectValuesNumeric (createEnhancedTeamSearchIndex s teams)

/-- The exact-pass predicate of `validateEnhancedTeamReference` of
`enhanced_team_utils.ts`: case-insensitive equality on `displayName`,
`nickName`, `abbrName`. -/
def exactMatchPred (q : String) (r : SearchRecord) : Bool :=
  jsToLower r.displayName = jsToLower q
    || jsToLower r.nickName = jsToLower q
    || jsToLower r.abbrName = jsToLower q

/-- The second-pass predicate of `validateEnhancedTeamReference` of
`enhanced_team_utils.ts`: case-insensitive substring test on `displayName`,
`cityName`, `nickName`. -/
def substringMatchPred (q : String) (r : SearchRecord) : Bool :=
  jsIncludes (jsToLower r.displayName) (jsToLower q)
    || jsIncludes (jsToLower r.cityName) (jsToLower q)
    || jsIncludes (jsToLower r.nickName) (jsToLower q)

/-- The second-pass field set of the amended claim C2, written from the
amended claim's words: the query is compared case-insensitively as a
substring against `displayName`, `cityName` and `nickName` only (the
pre-overlay `originalDisplayName`/`originalNickName` and `abbrName` are not
consulted). -/
def amendedSecondPassPred (q : String) (r : SearchRecord) : Bool :=
  jsIncludes (jsToLower r.displayName) (jsToLower q)
    || jsIncludes (jsToLower r.cityName) (jsToLower q)
    || jsIncludes (jsToLower r.nickName) (jsToLower q)

/-- The enhanced team list produced by `createEnhancedTeamList` of
`enhanced_madden_db.ts` (the closure's captured `enhancedTeams`). -/
structure EnhancedTeamList where
  enhancedTeams : List EnrichedTeam
deriving DecidableEq

/-- The closure's `teamMap` (`Map` keyed by `teamId`, built by a `forEach` of
`Map.set`, so a duplicated id keeps the last record). -/
def buildTeamMap (teams : List EnrichedTeam) : List (Nat × EnrichedTeam) :=
  teams.foldl (fun m team => jsMapSet m team.teamId team) []

/-- Source `createEnhancedTeamList` of `enhanced_madden_db.ts`, returning the updated
registry alongside the list object. -/
def createEnhancedTeamList (s : Store) (originalTeams : List Team) :
    Store × EnhancedTeamList :=
  let r := enhanceTeamData s originalTeams
  (r.1, ⟨r.2.2⟩)

/-- Source `getEnhancedTeamForId` of `enhanced_madden_db.ts`.  The fallback to
`originalTeamList.getTeamForId` lives in `madden_db.ts`, outside these
sources; it is modelled as `none` (no claim exercises it: every id looked up
below comes from the index over `enhancedTeams`). -/
def getEnhancedTeamForId (tl : EnhancedTeamList) (id : Nat) : Option EnrichedTeam :=
  jsMapGet (buildTeamMap tl.enhancedTeams) id

/-- Source `getEnhancedLatestTeams` of `enhanced_madden_db.ts` (the display-context
read accessor): the enriched teams through `sortTeamsForDivisionDisplay`. -/
def getEnhancedLatestTeams (s : Store) (tl : EnhancedTeamList) : List EnrichedTeam :=
  sortTeamsForDivisionDisplay s tl.enhancedTeams

/-- The result shape of `validateEnhancedTeamReference`. -/
structure ValidationResult where
  valid : Bool
  team : Option EnrichedTeam
  error : Option String
deriving DecidableEq

/-- The not-found error text of `validateEnhancedTeamReference`. -/
def noTeamFoundMessage (teamReference : String) : String :=
  "No team found for \"" ++ teamReference ++ "\". Please check the team name and try again."

/-- The ambiguity error text of `validateEnhancedTeamReference`, carrying the
joined display names of all candidates. -/
def multipleTeamsMessage (teamReference : String) (teamNames : List String) : String :=
  "Multiple teams found for \"" ++ teamReference ++ "\": "
    ++ String.intercalate ", " teamNames ++ ". Please be more specific."

/-- The record list `validateEnhancedTeamReference` iterates over: the index
is rebuilt per call from `teamList.getEnhancedLatestTeams()`. -/
def resolverIndexValues (s : Store) (tl : EnhancedTeamList) : List SearchRecord :=
  searchIndexValues s (getEnhancedLatestTeams s tl)

/-- Source `validateEnhancedTeamReference` of `enhanced_team_utils.ts`: exact pass
(first match of `Object.values(searchIndex)` wins), then the substring pass
dispatched on the number of matches. -/
def validateEnhancedTeamReference (s : Store) (teamReference : String)
    (tl : EnhancedTeamList) : ValidationResult :=
  let vals := resolverIndexValues s tl
  match vals.find? (exactMatchPred teamReference) with
  | some r => { valid := true, team := getEnhancedTeamForId tl r.id, error := none }
  | none =>
    match vals.filter (substringMatchPred teamReference) with
    | [r] => { valid := true, team := getEnhancedTeamForId tl r.id, error := none }
    | [] => { valid := false, team := none, error := some (noTeamFoundMessage teamReference) }
    | rs =>
      { valid := false, team := none,
        error := some (multipleTeamsMessage teamReference (rs.map (·.displayName))) }

/-- Source `validateDivisionIntegrity` of `team_utils.ts`, with the `console.warn`
diagnostics reified as the second component: the `for … of divisionCounts`
loop returns `false` at the first division whose count is not 4 (emitting that
single division/count diagnostic); otherwise the result is the 32-team test.
The count `Map` is built in insertion order (first occurrence of each
division name). -/
def divisionCountStep (m : List (String × Nat)) (team : Team) : List (String × Nat) :=
  jsMapSet m team.divName ((jsMapGet m team.divName).getD 0 + 1)

/-- See `validateDivisionIntegrityFull`. -/
def divisionCounts (teams : List Team) : List (String × Nat) :=
  teams.foldl divisionCountStep []

/-- See `divisionCounts`; the pair is (validation result, emitted diagnostics). -/
def validateDivisionIntegrityFull (teams : List Team) : Bool × List (String × Nat) :=
  match (divisionCounts teams).find? (fun p => ¬ p.2 = 4) with
  | some p => (false, [p])
  | none => (teams.length == 32, [])

/-- The boolean returned by `validateDivisionIntegrity` of `team_utils.ts`. -/
def validateDivisionIntegrity (teams : List Team) : Bool :=
  (validateDivisionIntegrityFull teams).1

/-- The number of teams of a division. -/
def countDiv (teams : List Team) (d : String) : Nat :=
  (teams.filter (fun team => team.divName = d)).length

/-! ### Concrete inputs used by witnesses and counterexamples -/

/-- A concrete raw team record. -/
def mkRawTeam (i : Nat) (dn nn cn ab dv : String) (did : Nat) : Team :=
  { teamId := i, displayName := dn, nickName := nn, cityName := cn, abbrName := ab,
    divName := dv, divisionId := did, conferenceId := 1, logoId := i }

/-- A league slot whose current in-game name is still its original one. -/
def billsTeam : Team := mkRawTeam 1 "Buffalo Bills" "Bills" "Buffalo" "BUF" "AFC East" 1

/-- A registry in which slot 1 is overlaid to the catalog name "Dragons". -/
def dragonsStore : Store := registerExpansionTeam [] 1 "Dragons" "Buffalo Bills" 1 1

/-- The enriched pipeline output for the overlaid Bills slot. -/
def dragonsPipeline : Store × EnhancedTeamList :=
  createEnhancedTeamList dragonsStore [billsTeam]

/-- A registry overlaying slot 1 to "Night Hawks" and slot 2 to "Snowhawks". -/
def hawkStore : Store :=
  registerExpansionTeam (registerExpansionTeam [] 1 "Night Hawks" "Buffalo Bills" 1 1)
    2 "Snowhawks" "Miami Dolphins" 2 1

/-- The two raw slots behind `hawkStore`. -/
def hawkTeams : List Team :=
  [ mkRawTeam 1 "Buffalo Bills" "Bills" "Buffalo" "BUF" "AFC East" 1,
    mkRawTeam 2 "Miami Dolphins" "Dolphins" "Miami" "MIA" "AFC East" 1 ]

/-- Pipeline output for the two hawk overlays. -/
def hawkPipeline : Store × EnhancedTeamList := createEnhancedTeamList hawkStore hawkTeams

/-- Two distinct teams sharing the display name "Zebras" (ids 7 and 3). -/
def zebraTeams : List Team :=
  [ mkRawTeam 7 "Zebras" "Zebras" "Omaha" "OMA" "AFC East" 1,
    mkRawTeam 3 "Zebras" "Zebras" "Austin" "AUS" "AFC West" 2 ]

/-- Pipeline output for the duplicate-name roster. -/
def zebraPipeline : Store × EnhancedTeamList := createEnhancedTeamList [] zebraTeams

/-- Two teams whose division-name order disagrees with their `divisionId`
order. -/
def divOrderTeams : List Team :=
  [ mkRawTeam 1 "Alpha" "Alpha" "A" "AAA" "AFC East" 2,
    mkRawTeam 2 "Beta" "Beta" "B" "BBB" "NFC West" 1 ]

/-- Pipeline output for `divOrderTeams`. -/
def divOrderPipeline : Store × EnhancedTeamList := createEnhancedTeamList [] divOrderTeams

/-- A healthy 32-team roster: 8 divisions of 4. -/
def healthyRoster : List Team :=
  (List.range 32).map (fun i =>
    mkRawTeam (i + 1) ("Team" ++ toString (i + 1)) "" "" ""
      ("Div" ++ toString (i / 4 + 1)) (i / 4 + 1))

/-- Roster `healthyRoster` after moving team 32 from "Div8" into "Div1". -/
def movedRoster : List Team :=
  healthyRoster.map (fun t => if t.teamId = 32 then { t with divName := "Div1" } else t)

/-- A raw slot already renamed in-game to the catalog name "Dragons". -/
def dragonTeamRaw : Team := mkRawTeam 5 "Dragons" "Dragons" "Omaha" "DRA" "AFC East" 1

/-! ### Generic facts about the JS `Map` model -/

theorem jsMapGet_set_self [DecidableEq κ] (m : List (κ × α)) (k : κ) (v : α) :
    jsMapGet (jsMapSet m k v) k = some v := by
  induction m with
  | nil => simp [jsMapSet, jsMapGet]
  | cons p rest ih =>
    by_cases h : p.1 = k
    · simp [jsMapSet, jsMapGet, h]
    · simpa [jsMapSet, jsMapGet, h] using ih

theorem jsMapGet_set_ne [DecidableEq κ] (m : List (κ × α)) (k k' : κ) (v : α)
    (h : k' ≠ k) : jsMapGet (jsMapSet m k v) k' = jsMapGet m k' := by
  have hk : ¬ (k = k') := fun e => h e.symm
  induction m with
  | nil => simp [jsMapSet, jsMapGet, List.find?, hk]
  | cons p rest ih =>
    rcases p with ⟨a, b⟩
    by_cases ha : a = k
    · rw [show jsMapSet ((a, b) :: rest) k v = (k, v) :: rest from by simp [jsMapSet, ha]]
      have ha' : ¬ (a = k') := fun e => hk (ha.symm.trans e)
      simp [jsMapGet, List.find?, hk, ha']
    · rw [show jsMapSet ((a, b) :: rest) k v = (a, b) :: jsMapSet rest k v from by
        simp [jsMapSet, ha]]
      by_cases ha' : a = k'
      · simp [jsMapGet, List.find?, ha']
      · simpa [jsMapGet, List.find?, ha'] using ih

theorem jsMapHas_set_self [DecidableEq κ] (m : List (κ × α)) (k : κ) (v : α) :
    jsMapHas (jsMapSet m k v) k = true := by
  simp [jsMapHas, jsMapGet_set_self]

theorem jsMapHas_set_of [DecidableEq κ] {m : List (κ × α)} {k' : κ} (k : κ) (v : α)
    (h : jsMapHas m k' = true) : jsMapHas (jsMapSet m k v) k' = true := by
  by_cases hk : k' = k
  · subst hk; exact jsMapHas_set_self m k' v
  · simpa [jsMapHas, jsMapGet_set_ne m k k' v hk] using h

theorem jsMapGet_eq_some_mem [DecidableEq κ] {m : List (κ × α)} {k : κ} {v : α}
    (h : jsMapGet m k = some v) : (k, v) ∈ m := by
  unfold jsMapGet at h
  rcases hf : m.find? (fun p => p.1 = k) with _ | p
  · rw [hf] at h; simp at h
  · rw [hf] at h
    have hp := List.find?_some hf
    have hm := List.mem_of_find?_eq_some hf
    simp at h hp
    have : p = (k, v) := by
      rcases p with ⟨pk, pv⟩
      simp at hp h
      simp [hp, h]
    simpa [this] using hm

theorem jsMapGet_of_mem_nodup [DecidableEq κ] {m : List (κ × α)} {k : κ} {v : α}
    (hnd : (m.map Prod.fst).Nodup) (h : (k, v) ∈ m) : jsMapGet m k = some v := by
  induction m with
  | nil => simp at h
  | cons p rest ih =>
    rcases p with ⟨a, b⟩
    rw [List.map_cons, List.nodup_cons] at hnd
    rcases List.mem_cons.mp h with h1 | h1
    · injection h1 with hk hv
      subst hk; subst hv
      simp [jsMapGet, List.find?]
    · have ha : ¬ (a = k) := by
        intro hak
        have : a ∈ rest.map Prod.fst := by
          rw [hak]; exact List.mem_map.mpr ⟨(k, v), h1, rfl⟩
        exact hnd.1 this
      simpa [jsMapGet, List.find?, ha] using ih hnd.2 h1

/-- Membership in the result of a `jsMapSet`. -/
theorem mem_jsMapSet [DecidableEq κ] {m : List (κ × α)} {k : κ} {v : α}
    {p : κ × α} (h : p ∈ jsMapSet m k v) : p = (k, v) ∨ p ∈ m := by
  induction m with
  | nil =>
    simp [jsMapSet] at h
    simp [h]
  | cons q rest ih =>
    rcases q with ⟨a, b⟩
    by_cases ha : a = k
    · rw [show jsMapSet ((a, b) :: rest) k v = (k, v) :: rest from by simp [jsMapSet, ha]]
        at h
      rcases List.mem_cons.mp h with h1 | h1
      · exact Or.inl h1
      · exact Or.inr (List.mem_cons_of_mem _ h1)
    · rw [show jsMapSet ((a, b) :: rest) k v = (a, b) :: jsMapSet rest k v from by
        simp [jsMapSet, ha]] at h
      rcases List.mem_cons.mp h with h1 | h1
      · exact Or.inr (h1 ▸ List.mem_cons_self _ _)
      · rcases ih h1 with h2 | h2
        · exact Or.inl h2
        · exact Or.inr (List.mem_cons_of_mem _ h2)

theorem jsMapSet_keys_nodup [DecidableEq κ] {m : List (κ × α)} (k : κ) (v : α)
    (hnd : (m.map Prod.fst).Nodup) : ((jsMapSet m k v).map Prod.fst).Nodup := by
  induction m with
  | nil => simp [jsMapSet]
  | cons p rest ih =>
    rcases p with ⟨a, b⟩
    rw [List.map_cons, List.nodup_cons] at hnd
    by_cases ha : a = k
    · rw [show jsMapSet ((a, b) :: rest) k v = (k, v) :: rest from by simp [jsMapSet, ha]]
      rw [List.map_cons, List.nodup_cons]
      exact ⟨by rw [← ha]; exact hnd.1, hnd.2⟩
    · rw [show jsMapSet ((a, b) :: rest) k v = (a, b) :: jsMapSet rest k v from by
        simp [jsMapSet, ha]]
      rw [List.map_cons, List.nodup_cons]
      refine ⟨?_, ih hnd.2⟩
      intro hmem
      rcases List.mem_map.mp hmem with ⟨q, hq, hq1⟩
      rcases mem_jsMapSet hq with h1 | h1
      · subst h1
        simp at hq1
        exact ha hq1.symm
      · exact hnd.1 (List.mem_map.mpr ⟨q, h1, hq1⟩)

/-- Lemma: `find?` returns the head of the corresponding `filter`. -/
theorem find?_eq_head?_filter (p : α → Bool) (l : List α) :
    l.find? p = (l.filter p).head? := by
  induction l with
  | nil => simp
  | cons a l ih =>
    by_cases h : p a = true
    · rw [List.find?_cons_of_pos _ h, List.filter_cons_of_pos h, List.head?_cons]
    · rw [List.find?_cons_of_neg _ h, List.filter_cons_of_neg (by simpa using h), ih]

/-! ### Auto-detection: registration is sticky and idempotent -/

theorem jsMapHas_autoDetectStep (st : Store) (t : Team) {k : Nat}
    (h : jsMapHas st k = true) : jsMapHas (autoDetectStep st t) k = true := by
  unfold autoDetectStep registerExpansionTeam
  by_cases hg : autoDetectGuard t = true
  · rw [if_pos hg]
    by_cases he : isExpansionTeam st t.teamId = true
    · rw [if_neg (by simp [he])]
      exact h
    · rw [if_pos (by simp [he])]
      exact jsMapHas_set_of _ _ h
  · rw [if_neg hg]
    exact h

theorem jsMapHas_autoDetect_mono (ts : List Team) : ∀ (s : Store) {k : Nat},
    jsMapHas s k = true → jsMapHas (autoDetectExpansionTeams s ts) k = true := by
  induction ts with
  | nil => intro s k h; exact h
  | cons t ts ih =>
    intro s k h
    exact ih (autoDetectStep s t) (jsMapHas_autoDetectStep s t h)

theorem jsMapHas_autoDetectStep_self (st : Store) (t : Team)
    (hg : autoDetectGuard t = true) :
    jsMapHas (autoDetectStep st t) t.teamId = true := by
  unfold autoDetectStep registerExpansionTeam
  rw [if_pos hg]
  by_cases h : isExpansionTeam st t.teamId = true
  · rw [if_neg (by simp [h])]
    exact h
  · rw [if_pos (by simp [h])]
    exact jsMapHas_set_self _ _ _

theorem jsMapHas_autoDetect_of_mem (ts : List Team) : ∀ (s : Store) (t : Team),
    t ∈ ts → autoDetectGuard t = true →
    jsMapHas (autoDetectExpansionTeams s ts) t.teamId = true := by
  induction ts with
  | nil => intro s t ht; simp at ht
  | cons u ts ih =>
    intro s t ht hg
    rcases List.mem_cons.mp ht with h1 | h1
    · subst h1
      exact jsMapHas_autoDetect_mono ts _ (jsMapHas_autoDetectStep_self s t hg)
    · exact ih (autoDetectStep s u) t h1 hg

theorem autoDetectStep_noop (st : Store) (t : Team)
    (h : autoDetectGuard t = false ∨ jsMapHas st t.teamId = true) :
    autoDetectStep st t = st := by
  unfold autoDetectStep
  rcases h with h | h
  · rw [if_neg (by simp [h])]
  · by_cases hg : autoDetectGuard t = true
    · rw [if_pos hg, if_neg (by simp [isExpansionTeam, h])]
    · rw [if_neg hg]

theorem autoDetect_noop (ts : List Team) : ∀ (s : Store),
    (∀ t ∈ ts, autoDetectGuard t = true → jsMapHas s t.teamId = true) →
    autoDetectExpansionTeams s ts = s := by
  induction ts with
  | nil => intro s _; rfl
  | cons t ts ih =>
    intro s hall
    have hstep : autoDetectStep s t = s := by
      by_cases hg : autoDetectGuard t = true
      · exact autoDetectStep_noop s t (Or.inr (hall t (List.mem_cons_self _ _) hg))
      · exact autoDetectStep_noop s t (Or.inl (by simpa using hg))
    show autoDetectExpansionTeams (autoDetectStep s t) ts = s
    rw [hstep]
    exact ih s (fun u hu => hall u (List.mem_cons_of_mem _ hu))

theorem autoDetectStep_keys_nodup (st : Store) (t : Team)
    (hnd : (st.map Prod.fst).Nodup) : ((autoDetectStep st t).map Prod.fst).Nodup := by
  unfold autoDetectStep registerExpansionTeam
  by_cases hg : autoDetectGuard t = true
  · rw [if_pos hg]
    by_cases he : isExpansionTeam st t.teamId = true
    · rw [if_neg (by simp [he])]
      exact hnd
    · rw [if_pos (by simp [he])]
      exact jsMapSet_keys_nodup _ _ hnd
  · rw [if_neg hg]
    exact hnd

theorem autoDetect_keys_nodup (ts : List Team) : ∀ (s : Store),
    (s.map Prod.fst).Nodup → ((autoDetectExpansionTeams s ts).map Prod.fst).Nodup := by
  induction ts with
  | nil => intro s h; exact h
  | cons t ts ih =>
    intro s h
    exact ih (autoDetectStep s t) (autoDetectStep_keys_nodup s t h)

/-- C7: `autoDetect` is idempotent — running it twice on the same unchanged
team list leaves the registry exactly as running it once (already-registered
teams are skipped), and it never introduces duplicate keys. -/
theorem autoDetect_idempotent (s : Store) (ts : List Team) :
    autoDetectExpansionTeams (autoDetectExpansionTeams s ts) ts
        = autoDetectExpansionTeams s ts ∧
    ((s.map Prod.fst).Nodup → ((autoDetectExpansionTeams s ts).map Prod.fst).Nodup) := by
  constructor
  · exact autoDetect_noop ts _ (fun t ht hg => jsMapHas_autoDetect_of_mem ts s t ht hg)
  · exact autoDetect_keys_nodup ts s

/-- Witness for C7 at a concrete registry and roster. -/
theorem autoDetect_idempotent_witness :
    autoDetectExpansionTeams (autoDetectExpansionTeams [] [dragonTeamRaw]) [dragonTeamRaw]
        = autoDetectExpansionTeams [] [dragonTeamRaw] ∧
    ((autoDetectExpansionTeams [] [dragonTeamRaw]).map Prod.fst).Nodup :=
  ⟨(autoDetect_idempotent [] [dragonTeamRaw]).1,
    (autoDetect_idempotent [] [dragonTeamRaw]).2 (by decide)⟩

/-! ### The sim classifier and the scoreboard sim message -/

/-- C1: the corrected sim classifier is a total function of the two reactor
sets determined only by their emptiness, and it realizes exactly the spec's
2×2 outcome table (home only → FORCE_WIN_HOME, away only → FORCE_WIN_AWAY,
both → FAIR_SIM, neither → NONE); one of the four outcomes is always
produced. -/
theorem classify_matches_spec_table (homeUsers awayUsers : List String) :
    classifySimResult homeUsers awayUsers
      = specSimTable (!homeUsers.isEmpty) (!awayUsers.isEmpty) := by
  cases homeUsers <;> cases awayUsers <;>
    simp [classifySimResult, specSimTable, List.isEmpty, Nat.succ_ne_zero]

/-- C10: the scoreboard sim-message formatter returns a string exactly for
`FAIR_SIM`, `FORCE_WIN_AWAY` and `FORCE_WIN_HOME`, and throws for every other
result string — including the serialization of the classifier's valid `NONE`
outcome. -/
theorem createSimMessage_total_on_three (s : String) :
    (createSimMessage "FAIR_SIM" = .ok "Fair Sim") ∧
    (createSimMessage "FORCE_WIN_AWAY" = .ok "Force Win Away") ∧
    (createSimMessage "FORCE_WIN_HOME" = .ok "Force Win Home") ∧
    (s ≠ "FAIR_SIM" → s ≠ "FORCE_WIN_AWAY" → s ≠ "FORCE_WIN_HOME" →
      createSimMessage s = .error simMessageErrorText) ∧
    createSimMessage (SimResult.serialize SimResult.NONE) = .error simMessageErrorText := by
  refine ⟨rfl, rfl, rfl, ?_, rfl⟩
  intro h1 h2 h3
  simp [createSimMessage, h1, h2, h3]

/-- Witness for C10: the formatter throws on the string "NONE". -/
theorem createSimMessage_none_throws :
    createSimMessage "NONE" = .error simMessageErrorText :=
  (createSimMessage_total_on_three "NONE").2.2.2.1 (by decide) (by decide) (by decide)

/-! ### Enrichment never mutates its input -/

/-- C8: enrichment is a pure projection of its input — the input team array is
unchanged by the call (the mutable registry is the only state written), and
the output is a freshly built list mapped from the input records. -/
theorem enhanceTeamData_input_frame (s : Store) (teams : List Team) :
    (enhanceTeamData s teams).2.1 = teams ∧
    (enhanceTeamData s teams).2.2
      = teams.map (enhanceOne (autoDetectExpansionTeams s teams)) :=
  ⟨rfl, rfl⟩

/-! ### The division-integrity validator -/

theorem countDiv_cons_pos {t : Team} {d : String} (ts : List Team)
    (h : t.divName = d) : countDiv (t :: ts) d = countDiv ts d + 1 := by
  simp [countDiv, List.filter, h]

theorem countDiv_cons_neg {t : Team} {d : String} (ts : List Team)
    (h : ¬ t.divName = d) : countDiv (t :: ts) d = countDiv ts d := by
  simp [countDiv, List.filter, h]

theorem counts_get_some (ts : List Team) :
    ∀ (m : List (String × Nat)) (d : String) (n : Nat), jsMapGet m d = some n →
      jsMapGet (ts.foldl divisionCountStep m) d = some (n + countDiv ts d) := by
  induction ts with
  | nil => intro m d n h; simpa [countDiv] using h
  | cons t ts ih =>
    intro m d n h
    show jsMapGet (ts.foldl divisionCountStep (divisionCountStep m t)) d = _
    by_cases hd : t.divName = d
    · have h1 : jsMapGet (divisionCountStep m t) d = some (n + 1) := by
        simp [divisionCountStep, hd, h, jsMapGet_set_self]
      rw [ih _ d (n + 1) h1, countDiv_cons_pos ts hd]
      congr 1
      omega
    · have h1 : jsMapGet (divisionCountStep m t) d = some n := by
        unfold divisionCountStep
        rw [jsMapGet_set_ne _ _ _ _ (fun e => hd e.symm)]
        exact h
      rw [ih _ d n h1, countDiv_cons_neg ts hd]

theorem counts_get_none (ts : List Team) :
    ∀ (m : List (String × Nat)) (d : String), jsMapGet m d = none →
      jsMapGet (ts.foldl divisionCountStep m) d
        = if countDiv ts d = 0 then none else some (countDiv ts d) := by
  induction ts with
  | nil => intro m d h; simpa [countDiv] using h
  | cons t ts ih =>
    intro m d h
    show jsMapGet (ts.foldl divisionCountStep (divisionCountStep m t)) d = _
    by_cases hd : t.divName = d
    · have h1 : jsMapGet (divisionCountStep m t) d = some 1 := by
        simp [divisionCountStep, hd, h, jsMapGet_set_self]
      rw [counts_get_some ts _ d 1 h1, countDiv_cons_pos ts hd,
        if_neg (Nat.succ_ne_zero _)]
      congr 1
      omega
    · have h1 : jsMapGet (divisionCountStep m t) d = none := by
        unfold divisionCountStep
        rw [jsMapGet_set_ne _ _ _ _ (fun e => hd e.symm)]
        exact h
      rw [ih _ d h1, countDiv_cons_neg ts hd]

theorem divisionCounts_get (ts : List Team) (d : String) :
    jsMapGet (divisionCounts ts) d
      = if countDiv ts d = 0 then none else some (countDiv ts d) :=
  counts_get_none ts [] d rfl

theorem divisionCounts_keys_nodup (ts : List Team) :
    ((divisionCounts ts).map Prod.fst).Nodup := by
  have aux : ∀ (l : List Team) (m : List (String × Nat)), (m.map Prod.fst).Nodup →
      ((l.foldl divisionCountStep m).map Prod.fst).Nodup := by
    intro l
    induction l with
    | nil => intro m h; exact h
    | cons t l ih =>
      intro m h
      exact ih (divisionCountStep m t) (jsMapSet_keys_nodup _ _ h)
  exact aux ts [] (by simp)

theorem mem_divisionCounts (ts : List Team) {d : String} {c : Nat}
    (h : (d, c) ∈ divisionCounts ts) : c = countDiv ts d ∧ countDiv ts d ≠ 0 := by
  have hg : jsMapGet (divisionCounts ts) d = some c :=
    jsMapGet_of_mem_nodup (divisionCounts_keys_nodup ts) h
  rw [divisionCounts_get] at hg
  by_cases h0 : countDiv ts d = 0
  · rw [if_pos h0] at hg
    exact absurd hg (by simp)
  · rw [if_neg h0] at hg
    exact ⟨(Option.some.injEq _ _ ▸ hg).symm, h0⟩

theorem countDiv_ne_zero_of_mem {ts : List Team} {t : Team} (ht : t ∈ ts) :
    countDiv ts t.divName ≠ 0 := by
  have : t ∈ ts.filter (fun u => u.divName = t.divName) :=
    List.mem_filter.mpr ⟨ht, by simp⟩
  have hlen := List.length_pos.mpr (List.ne_nil_of_mem this)
  unfold countDiv
  omega

theorem exists_mem_of_countDiv_ne_zero {ts : List Team} {d : String}
    (h : countDiv ts d ≠ 0) : ∃ t ∈ ts, t.divName = d := by
  unfold countDiv at h
  have : ts.filter (fun u => u.divName = d) ≠ [] := by
    intro he
    rw [he] at h
    simp at h
  rcases List.exists_mem_of_ne_nil _ this with ⟨t, ht⟩
  have := List.mem_filter.mp ht
  exact ⟨t, this.1, by simpa using this.2⟩

theorem mem_divisionCounts_of_mem {ts : List Team} {t : Team} (ht : t ∈ ts) :
    (t.divName, countDiv ts t.divName) ∈ divisionCounts ts := by
  apply jsMapGet_eq_some_mem
  rw [divisionCounts_get, if_neg (countDiv_ne_zero_of_mem ht)]

/-- C6: the division validator returns `true` exactly when every division
present has exactly 4 members and the roster has exactly 32 teams. -/
theorem validateDivisionIntegrity_iff (teams : List Team) :
    validateDivisionIntegrity teams = true ↔
      ((∀ t ∈ teams, countDiv teams t.divName = 4) ∧ teams.length = 32) := by
  unfold validateDivisionIntegrity validateDivisionIntegrityFull
  rcases hf : (divisionCounts teams).find? (fun p => ¬ p.2 = 4) with _ | p
  · have hall : ∀ t ∈ teams, countDiv teams t.divName = 4 := by
      intro t ht
      have := List.find?_eq_none.mp hf _ (mem_divisionCounts_of_mem ht)
      simpa using this
    simp only [hf]
    constructor
    · intro h
      exact ⟨hall, by simpa using h⟩
    · rintro ⟨-, h⟩
      simpa using h
  · rcases p with ⟨d, c⟩
    have hp : ¬ c = 4 := by simpa using List.find?_some hf
    have hc := mem_divisionCounts teams (List.mem_of_find?_eq_some hf)
    simp only [hf]
    constructor
    · intro h
      simp at h
    · rintro ⟨hall, -⟩
      exfalso
      rcases exists_mem_of_countDiv_ne_zero hc.2 with ⟨t, ht, htd⟩
      have h4 := hall t ht
      rw [htd] at h4
      exact hp (hc.1.trans h4)

/-- Witness for C6 at a healthy 32-team roster split 8 × 4. -/
theorem validateDivisionIntegrity_iff_witness :
    validateDivisionIntegrity healthyRoster = true :=
  (validateDivisionIntegrity_iff healthyRoster).mpr ⟨by decide, by decide⟩

/-- Counterexample to C3 as stated: after moving team 32 of a healthy roster
from "Div8" to "Div1", both divisions have a bad count (5 and 3), yet the
validator emits exactly one diagnostic, for "Div1" only — not one line per
offending division. -/
theorem divisionDiagnostics_only_first :
    countDiv movedRoster "Div1" = 5 ∧ countDiv movedRoster "Div8" = 3 ∧
      (validateDivisionIntegrityFull movedRoster).2 = [("Div1", 5)] :=
  ⟨by decide, by decide, by decide⟩

/-- C3 (amended): the validator emits at most one diagnostic — the first
division, in first-appearance order, whose count is not 4, with its count —
and it emits that one diagnostic (and returns `false`) whenever any division
count differs from 4; after moving a single team it therefore identifies only
one of the two divisions involved. -/
theorem validateDivisionIntegrityFull_diag (teams : List Team) :
    (validateDivisionIntegrityFull teams).2.length ≤ 1 ∧
    (∀ p ∈ (validateDivisionIntegrityFull teams).2,
        p.2 = countDiv teams p.1 ∧ p.2 ≠ 4 ∧ validateDivisionIntegrity teams = false) ∧
    ((∃ t ∈ teams, countDiv teams t.divName ≠ 4) →
        (validateDivisionIntegrityFull teams).2 ≠ []) := by
  unfold validateDivisionIntegrity validateDivisionIntegrityFull
  rcases hf : (divisionCounts teams).find? (fun p => ¬ p.2 = 4) with _ | p
  · simp only [hf]
    refine ⟨by simp, by simp, ?_⟩
    rintro ⟨t, ht, hc⟩
    exfalso
    have := List.find?_eq_none.mp hf _ (mem_divisionCounts_of_mem ht)
    simp at this
    exact hc this
  · rcases p with ⟨d, c⟩
    have hp : ¬ c = 4 := by simpa using List.find?_some hf
    have hc := mem_divisionCounts teams (List.mem_of_find?_eq_some hf)
    simp only [hf]
    refine ⟨by simp, ?_, by simp⟩
    intro p hp2
    simp at hp2
    subst hp2
    exact ⟨hc.1, hp, trivial⟩

/-- Witness for C3 (amended): on the moved roster a diagnostic is emitted. -/
theorem validateDivisionIntegrityFull_diag_witness :
    (validateDivisionIntegrityFull movedRoster).2 ≠ [] :=
  (validateDivisionIntegrityFull_diag movedRoster).2.2 (by decide)

/-! ### The display-context sort order -/

theorem charListLt_irrefl : ∀ l : List Char, charListLt l l = false := by
  intro l
  induction l with
  | nil => rfl
  | cons a as ih => simp [charListLt, ih]

theorem charListLt_asymm : ∀ l1 l2 : List Char,
    charListLt l1 l2 = true → charListLt l2 l1 = false := by
  intro l1
  induction l1 with
  | nil =>
    intro l2 h
    cases l2 with
    | nil => simp [charListLt] at h
    | cons b bs => rfl
  | cons a as ih =>
    intro l2 h
    cases l2 with
    | nil => simp [charListLt] at h
    | cons b bs =>
      rcases Nat.lt_trichotomy a.toNat b.toNat with h1 | h1 | h1
      · simp [charListLt, h1, Nat.lt_asymm h1]
      · simp [charListLt, h1, Nat.lt_irrefl] at h ⊢
        exact ih bs h
      · simp [charListLt, h1, Nat.lt_asymm h1] at h

theorem charListLt_trans : ∀ l1 l2 l3 : List Char,
    charListLt l1 l2 = true → charListLt l2 l3 = true → charListLt l1 l3 = true := by
  intro l1
  induction l1 with
  | nil =>
    intro l2 l3 h1 h2
    cases l2 with
    | nil => simp [charListLt] at h1
    | cons b bs =>
      cases l3 with
      | nil => simp [charListLt] at h2
      | cons c cs => rfl
  | cons a as ih =>
    intro l2 l3 h1 h2
    cases l2 with
    | nil => simp [charListLt] at h1
    | cons b bs =>
      cases l3 with
      | nil => simp [charListLt] at h2
      | cons c cs =>
        rcases Nat.lt_trichotomy a.toNat b.toNat with hab | hab | hab
        · rcases Nat.lt_trichotomy b.toNat c.toNat with hbc | hbc | hbc
          · simp [charListLt, Nat.lt_trans hab hbc]
          · simp [charListLt, hbc ▸ hab]
          · simp [charListLt, hbc, Nat.lt_asymm hbc] at h2
        · rcases Nat.lt_trichotomy b.toNat c.toNat with hbc | hbc | hbc
          · simp [charListLt, hab ▸ hbc]
          · simp [charListLt, hab, hbc, Nat.lt_irrefl] at h1 h2 ⊢
            rw [hab] at *
            simp [hbc, Nat.lt_irrefl] at *
            exact ih bs cs h1 h2
          · simp [charListLt, hbc, Nat.lt_asymm hbc] at h2
        · simp [charListLt, hab, Nat.lt_asymm hab] at h1

theorem charListLt_eq_of_not_lt : ∀ l1 l2 : List Char,
    charListLt l1 l2 = false → charListLt l2 l1 = false → l1 = l2 := by
  intro l1
  induction l1 with
  | nil =>
    intro l2 h1 _
    cases l2 with
    | nil => rfl
    | cons b bs => simp [charListLt] at h1
  | cons a as ih =>
    intro l2 h1 h2
    cases l2 with
    | nil => simp [charListLt] at h2
    | cons b bs =>
      rcases Nat.lt_trichotomy a.toNat b.toNat with hab | hab | hab
      · simp [charListLt, hab] at h1
      · have hc : a = b := by
          rw [← Char.ofNat_toNat a, ← Char.ofNat_toNat b, hab]
        subst hc
        simp [charListLt, Nat.lt_irrefl] at h1 h2
        rw [ih bs h1 h2]
      · simp [charListLt, hab] at h2

theorem strLtB_irrefl (a : String) : strLtB a a = false := charListLt_irrefl a.data

theorem strLtB_asymm {a b : String} (h : strLtB a b = true) : strLtB b a = false :=
  charListLt_asymm a.data b.data h

theorem strLtB_trans {a b c : String} (h1 : strLtB a b = true)
    (h2 : strLtB b c = true) : strLtB a c = true :=
  charListLt_trans a.data b.data c.data h1 h2

theorem strLtB_eq {a b : String} (h1 : strLtB a b = false)
    (h2 : strLtB b a = false) : a = b := by
  have hd := charListLt_eq_of_not_lt a.data b.data h1 h2
  exact congrArg String.mk hd

theorem strLtB_false_trans {x y z : String} (h1 : strLtB y x = false)
    (h2 : strLtB z y = false) : strLtB z x = false := by
  cases h3 : strLtB z x
  · rfl
  · exfalso
    cases h4 : strLtB x y
    · have he := strLtB_eq h4 h1
      subst he
      rw [h3] at h2
      simp at h2
    · have h5 := strLtB_trans h3 h4
      rw [h5] at h2
      simp at h2

theorem localeCompare_le_iff (a b : String) :
    localeCompare a b ≤ 0 ↔ strLtB b a = false := by
  unfold localeCompare
  by_cases h1 : strLtB a b = true
  · rw [if_pos h1]
    exact iff_of_true (by decide) (strLtB_asymm h1)
  · rw [if_neg h1]
    by_cases h2 : strLtB b a = true
    · rw [if_pos h2]
      exact iff_of_false (by decide) (by simp [h2])
    · rw [if_neg h2]
      exact iff_of_true (by decide) (by simpa using h2)

theorem divisionDisplayLe_iff (s : Store) (a b : EnrichedTeam) :
    divisionDisplayLe s a b ↔
      (strLtB a.divName b.divName = true ∨
        (a.divName = b.divName ∧
          strLtB (getTeamDisplayName s b.teamId b.displayName)
            (getTeamDisplayName s a.teamId a.displayName) = false)) := by
  unfold divisionDisplayLe divisionDisplayCompare
  by_cases hd : a.divName = b.divName
  · rw [if_neg (by simp [hd]), localeCompare_le_iff]
    constructor
    · intro h
      exact Or.inr ⟨hd, h⟩
    · rintro (h | ⟨-, h⟩)
      · rw [hd] at h
        rw [strLtB_irrefl] at h
        simp at h
      · exact h
  · rw [if_pos hd, localeCompare_le_iff]
    constructor
    · intro h
      cases h3 : strLtB a.divName b.divName
      · exact absurd (strLtB_eq h3 h) hd
      · exact Or.inl rfl
    · rintro (h | ⟨he, -⟩)
      · exact strLtB_asymm h
      · exact absurd he hd

theorem divisionDisplayLe_total (s : Store) (a b : EnrichedTeam) :
    divisionDisplayLe s a b ∨ divisionDisplayLe s b a := by
  rw [divisionDisplayLe_iff, divisionDisplayLe_iff]
  by_cases hd : a.divName = b.divName
  · cases h1 : strLtB (getTeamDisplayName s b.teamId b.displayName)
        (getTeamDisplayName s a.teamId a.displayName)
    · exact Or.inl (Or.inr ⟨hd, rfl⟩)
    · exact Or.inr (Or.inr ⟨hd.symm, strLtB_asymm h1⟩)
  · cases h1 : strLtB a.divName b.divName
    · cases h2 : strLtB b.divName a.divName
      · exact absurd (strLtB_eq h1 h2) hd
      · exact Or.inr (Or.inl rfl)
    · exact Or.inl (Or.inl rfl)

theorem divisionDisplayLe_trans (s : Store) (a b c : EnrichedTeam)
    (h1 : divisionDisplayLe s a b) (h2 : divisionDisplayLe s b c) :
    divisionDisplayLe s a c := by
  rw [divisionDisplayLe_iff] at h1 h2 ⊢
  rcases h1 with h1 | ⟨e1, d1⟩
  · rcases h2 with h2 | ⟨e2, -⟩
    · exact Or.inl (strLtB_trans h1 h2)
    · exact Or.inl (by rw [← e2]; exact h1)
  · rcases h2 with h2 | ⟨e2, d2⟩
    · exact Or.inl (by rw [e1]; exact h2)
    · exact Or.inr ⟨e1.trans e2, strLtB_false_trans d1 d2⟩

/-- C4 (amended): the display-context read accessor returns a permutation of
the enriched roster sorted primarily by division *name* (`divName`, code-point
string order) ascending and secondarily by the overlaid display name
ascending — not by `divisionId`. -/
theorem getEnhancedLatestTeams_sorted (s : Store) (tl : EnhancedTeamList) :
    List.Perm (getEnhancedLatestTeams s tl) tl.enhancedTeams ∧
    List.Sorted (divisionDisplayLe s) (getEnhancedLatestTeams s tl) ∧
    (∀ a b : EnrichedTeam, divisionDisplayLe s a b ↔
      (strLtB a.divName b.divName = true ∨
        (a.divName = b.divName ∧
          strLtB (getTeamDisplayName s b.teamId b.displayName)
            (getTeamDisplayName s a.teamId a.displayName) = false))) := by
  refine ⟨List.perm_insertionSort _ _, ?_, divisionDisplayLe_iff s⟩
  haveI : IsTotal EnrichedTeam (divisionDisplayLe s) := ⟨divisionDisplayLe_total s⟩
  haveI : IsTrans EnrichedTeam (divisionDisplayLe s) :=
    ⟨fun a b c => divisionDisplayLe_trans s a b c⟩
  exact List.sorted_insertionSort _ _

/-- Witness for C4 (amended) at a concrete two-team roster. -/
theorem getEnhancedLatestTeams_sorted_witness :
    List.Sorted (divisionDisplayLe divOrderPipeline.1)
      (getEnhancedLatestTeams divOrderPipeline.1 divOrderPipeline.2) :=
  (getEnhancedLatestTeams_sorted divOrderPipeline.1 divOrderPipeline.2).2.1

/-- Counterexample to C4 as stated: on a roster whose division-name order
disagrees with its `divisionId` order, the accessor's output is *not* sorted
by `divisionId` ascending ("AFC East" with `divisionId` 2 sorts before
"NFC West" with `divisionId` 1). -/
theorem divisionIdOrder_violated :
    ¬ List.Pairwise (fun a b : EnrichedTeam => a.divisionId ≤ b.divisionId)
      (getEnhancedLatestTeams divOrderPipeline.1 divOrderPipeline.2) := by
  intro h
  have h2 := List.Pairwise.map (fun t : EnrichedTeam => t.divisionId)
    (fun a b hab => hab) h
  rw [show (getEnhancedLatestTeams divOrderPipeline.1 divOrderPipeline.2).map
      (fun t : EnrichedTeam => t.divisionId) = [2, 1] from by decide] at h2
  simp at h2

/-! ### The two-pass name resolver -/

theorem searchIndex_entry_id (s : Store) (ts : List EnrichedTeam) :
    ∀ p ∈ createEnhancedTeamSearchIndex s ts, p.2.id = p.1 := by
  have aux : ∀ (l : List EnrichedTeam) (m : List (Nat × SearchRecord)),
      (∀ p ∈ m, p.2.id = p.1) →
      ∀ p ∈ l.foldl (searchIndexStep s) m, p.2.id = p.1 := by
    intro l
    induction l with
    | nil => intro m h; exact h
    | cons t l ih =>
      intro m h
      apply ih
      intro p hp
      rcases mem_jsMapSet hp with h1 | h1
      · subst h1; rfl
      · exact h p h1
  exact aux ts [] (by simp)

theorem searchIndexValues_sorted_ids (s : Store) (ts : List EnrichedTeam) :
    List.Pairwise (fun a b : SearchRecord => a.id ≤ b.id) (searchIndexValues s ts) := by
  unfold searchIndexValues objectValuesNumeric
  rw [List.pairwise_map]
  haveI : IsTotal (Nat × SearchRecord) keyLe := ⟨fun p q => Nat.le_total p.1 q.1⟩
  haveI : IsTrans (Nat × SearchRecord) keyLe := ⟨fun p q r h1 h2 => le_trans h1 h2⟩
  have hs : List.Pairwise keyLe
      (List.insertionSort keyLe (createEnhancedTeamSearchIndex s ts)) :=
    List.sorted_insertionSort _ _
  have hmem : ∀ p ∈ List.insertionSort keyLe (createEnhancedTeamSearchIndex s ts),
      p.2.id = p.1 := by
    intro p hp
    exact searchIndex_entry_id s ts p ((List.perm_insertionSort keyLe _).mem_iff.mp hp)
  refine hs.imp_of_mem ?_
  intro a b ha hb h
  rw [hmem a ha, hmem b hb]
  exact h

/-- C9: the exact pass returns the first record of the index — enumerated in
ascending `teamId` order — that matches the query case-insensitively on
`displayName`/`nickName`/`abbrName`, as a success, without any uniqueness
check: `find?` is the head of the filtered matches, and whenever it yields a
record the resolver returns that record's team. -/
theorem exactPass_first_match (s : Store) (tl : EnhancedTeamList) (q : String) :
    ((resolverIndexValues s tl).find? (exactMatchPred q)
        = ((resolverIndexValues s tl).filter (exactMatchPred q)).head?) ∧
    List.Pairwise (fun a b : SearchRecord => a.id ≤ b.id) (resolverIndexValues s tl) ∧
    (∀ r, (resolverIndexValues s tl).find? (exactMatchPred q) = some r →
      validateEnhancedTeamReference s q tl
        = { valid := true, team := getEnhancedTeamForId tl r.id, error := none }) := by
  refine ⟨find?_eq_head?_filter _ _, searchIndexValues_sorted_ids s _, ?_⟩
  intro r hr
  simp only [validateEnhancedTeamReference, hr]

/-- Witness for C9: two teams share the exact name "Zebras"; the resolver
still succeeds and picks the record with the smaller id (3, not 7). -/
theorem exactPass_first_match_witness :
    2 ≤ ((resolverIndexValues zebraPipeline.1 zebraPipeline.2).filter
          (exactMatchPred "Zebras")).length ∧
    validateEnhancedTeamReference zebraPipeline.1 "Zebras" zebraPipeline.2
      = { valid := true, team := getEnhancedTeamForId zebraPipeline.2 3, error := none } := by
  constructor
  · decide
  · have h := (exactPass_first_match zebraPipeline.1 zebraPipeline.2 "Zebras").2.2
      ⟨"Austin", "AUS", "Zebras", "Zebras", 3, "Zebras", "Zebras", false⟩ (by decide)
    exact h.trans (by decide)

/-- C5: when the exact pass finds nothing, the second pass drives the result —
zero substring matches yield the not-found error carrying the query, exactly
one yields that team, and two or more yield the ambiguity error carrying the
display names of all candidates (never a single team). -/
theorem resolver_secondPass_dispatch (s : Store) (tl : EnhancedTeamList) (q : String)
    (hex : (resolverIndexValues s tl).find? (exactMatchPred q) = none) :
    (((resolverIndexValues s tl).filter (substringMatchPred q)) = [] →
      validateEnhancedTeamReference s q tl
        = { valid := false, team := none, error := some (noTeamFoundMessage q) }) ∧
    (∀ r, ((resolverIndexValues s tl).filter (substringMatchPred q)) = [r] →
      validateEnhancedTeamReference s q tl
        = { valid := true, team := getEnhancedTeamForId tl r.id, error := none }) ∧
    (2 ≤ ((resolverIndexValues s tl).filter (substringMatchPred q)).length →
      validateEnhancedTeamReference s q tl
        = { valid := false, team := none,
            error := some (multipleTeamsMessage q
              (((resolverIndexValues s tl).filter (substringMatchPred q)).map
                (·.displayName))) }) := by
  refine ⟨?_, ?_, ?_⟩
  · intro h
    simp only [validateEnhancedTeamReference, hex, h]
  · intro r h
    simp only [validateEnhancedTeamReference, hex, h]
  · intro h
    rcases hm : (resolverIndexValues s tl).filter (substringMatchPred q) with _ | ⟨a, _ | ⟨b, rest⟩⟩
    · rw [hm] at h; simp at h
    · rw [hm] at h; simp at h
    · simp only [validateEnhancedTeamReference, hex, hm]

/-- Witness for C5: "hawks" matches both "Night Hawks" and "Snowhawks" in the
second pass; the resolver reports both candidates and no team. -/
theorem resolver_secondPass_dispatch_witness :
    validateEnhancedTeamReference hawkPipeline.1 "hawks" hawkPipeline.2
      = { valid := false, team := none,
          error := some (multipleTeamsMessage "hawks" ["Night Hawks", "Snowhawks"]) } := by
  have h := (resolver_secondPass_dispatch hawkPipeline.1 hawkPipeline.2 "hawks"
    (by decide)).2.2 (by decide)
  exact h.trans (by decide)

/-- Counterexample to C2 as stated: slot 1 is overlaid to the catalog name
"Dragons" (its pre-overlay display name "Buffalo Bills" is preserved in
`originalDisplayName`), yet resolving by that pre-overlay name fails — the
second pass does not consult the original names. -/
theorem originalName_resolution_fails :
    (dragonsPipeline.2.enhancedTeams.map (·.displayName) = ["Dragons"]) ∧
    (dragonsPipeline.2.enhancedTeams.map (·.originalDisplayName)
      = [some "Buffalo Bills"]) ∧
    (validateEnhancedTeamReference dragonsPipeline.1 "Buffalo Bills"
        dragonsPipeline.2).valid = false :=
  ⟨by decide, by decide, by decide⟩

/-- C2 (amended): when the exact pass finds nothing, the resolver's second
pass compares the query case-insensitively as a substring against
`displayName`, `cityName` and `nickName` only — `originalDisplayName`,
`originalNickName` and `abbrName` are not consulted — and the result is fully
determined by that three-field filter. -/
theorem resolver_secondPass_fields (s : Store) (tl : EnhancedTeamList) (q : String)
    (hex : (resolverIndexValues s tl).find? (exactMatchPred q) = none) :
    validateEnhancedTeamReference s q tl
      = (match (resolverIndexValues s tl).filter (amendedSecondPassPred q) with
         | [r] => { valid := true, team := getEnhancedTeamForId tl r.id, error := none }
         | [] => { valid := false, team := none, error := some (noTeamFoundMessage q) }
         | rs => { valid := false, team := none,
                   error := some (multipleTeamsMessage q (rs.map (·.displayName))) }) := by
  have hpred : amendedSecondPassPred q = substringMatchPred q := rfl
  simp only [validateEnhancedTeamReference, hex, hpred]

/-- Witness for C2 (amended): on the Dragons overlay, the query
"Buffalo Bills" matches none of the three consulted fields and the resolver
reports not-found. -/
theorem resolver_secondPass_fields_witness :
    validateEnhancedTeamReference dragonsPipeline.1 "Buffalo Bills" dragonsPipeline.2
      = { valid := false, team := none,
          error := some (noTeamFoundMessage "Buffalo Bills") } := by
  have h := resolver_secondPass_fields dragonsPipeline.1 dragonsPipeline.2
    "Buffalo Bills" (by decide)
  exact h.trans (by decide)

end Snallabot
